import Mathlib

/-
Verification of the Market-Pulse processing pipeline.

This file gives a shallow embedding of the core pipeline of the repository
(rules engine, ranking engine, output accumulator, upload buffer, cron
scheduler effects) and proves the behavioural claims about it.

Modelling conventions:
- Python floats are modelled as rationals; the numeric strings appearing in
  the claims are exactly representable and their order relations coincide
  with IEEE double order, so the rational model is faithful for every fact
  proved here.
- Python dict rows are modelled as association lists of strings: the source
  always converts a looked-up row value with str before using it.
- Python sorted is a stable sort; stable sorts with the same key produce
  identical output, so it is modelled by insertion sort on the same key.
-/

namespace MarketPulse

/-! ## rules_service.py : condition evaluator -/

/-- Row of data, as seen by the rule engine. The source converts each value
with str before comparing, so values are carried as strings here. -/
abbrev Row := List (String × String)

/-- Embedding of one condition dict, rules_service.py. The field ctype is
the dict key named type, defaulting to the string where. -/
structure Condition where
  ctype : String := "where"
  column : String := ""
  operator : String := ""
  value : String := ""
  value2 : String := ""
deriving DecidableEq, Repr

/-- Lowercasing by code point, the model of the Python str.lower method used
on operator names, row values and comparison values; ASCII suffices for the
strings the rule engine compares. Implemented on the character list so that
it evaluates inside the kernel. -/
def toLowerStr (s : String) : String := String.mk (s.data.map Char.toLower)

/-- Decimal digit list to natural number. -/
def digitsVal (l : List Char) : Nat :=
  l.foldl (fun n c => 10 * n + (c.toNat - '0'.toNat)) 0

/-- Numeric parse of an unsigned decimal numeral, integer part and optional
fractional part, at least one digit in total. -/
def parseUnsigned (l : List Char) : Option ℚ :=
  match l.splitOn '.' with
  | [ip] =>
    if ip ≠ [] ∧ ip.all Char.isDigit then some ((digitsVal ip : ℤ) : ℚ) else none
  | [ip, fp] =>
    if (ip ++ fp) ≠ [] ∧ ip.all Char.isDigit ∧ fp.all Char.isDigit then
      some (Rat.divInt ((digitsVal ip * 10 ^ fp.length + digitsVal fp : ℕ) : ℤ)
        (((10 : ℕ) ^ fp.length : ℕ) : ℤ))
    else none
  | _ => none

/-- Embedding of the Python float builtin applied to a string, restricted to
plain signed decimal numerals, the fragment exercised by the rules engine.
Returns none where float raises ValueError. -/
def pyFloat (s : String) : Option ℚ :=
  match s.data with
  | [] => none
  | c :: rest =>
    if c = '-' then (parseUnsigned rest).map (fun q => -q)
    else if c = '+' then parseUnsigned rest
    else parseUnsigned (c :: rest)

/-- Embedding of the operator_map dict lookup with default, rules_service.py
lines 110 to 145: maps every accepted surface spelling to the canonical
operator name, leaving unknown spellings unchanged. -/
def normalize_operator (op : String) : String :=
  if op = "equal to" then "equal_to"
  else if op = "not equal to" then "not_equal_to"
  else if op = "less than" then "less_than"
  else if op = "greater than" then "greater_than"
  else if op = "less than equal to" then "less_than_equal_to"
  else if op = "greater than equal to" then "greater_than_equal_to"
  else if op = "between" then "between"
  else if op = "contains" then "contains"
  else if op = "starts with" then "starts_with"
  else if op = "ends with" then "ends_with"
  else if op = "is equal to" then "equal_to"
  else if op = "is not equal to" then "not_equal_to"
  else if op = "is less than" then "less_than"
  else if op = "is greater than" then "greater_than"
  else if op = "equals" then "equal_to"
  else if op = "not_equals" then "not_equal_to"
  else if op = "not_contains" then "not_contains"
  else if op = "does not contain" then "not_contains"
  else if op = "greater_than" then "greater_than"
  else if op = "less_than" then "less_than"
  else if op = "greater_or_equal" then "greater_than_equal_to"
  else if op = "less_or_equal" then "less_than_equal_to"
  else op

/-- Embedding of the row value lookup loop of evaluate_condition,
rules_service.py lines 148 to 156: first key equal to the requested column
up to case, missing column gives the empty string. -/
def lookup_row_value (row : Row) (column : String) : String :=
  match row.find? (fun kv => toLowerStr kv.1 == toLowerStr column) with
  | some kv => kv.2
  | none => ""

/-- Dispatch of evaluate_condition on the already normalized operator with
the already looked-up row value, rules_service.py lines 158 to 226. The
try and except blocks around float are the Option matches; every failure
path returns false, never an exception. -/
def eval_with_operator (op row_value value value2 : String) : Bool :=
  if op = "equal_to" then
    match pyFloat row_value, pyFloat value with
    | some a, some b => a == b
    | _, _ => toLowerStr row_value == toLowerStr value
  else if op = "not_equal_to" then
    match pyFloat row_value, pyFloat value with
    | some a, some b => a != b
    | _, _ => toLowerStr row_value != toLowerStr value
  else if op = "contains" then
    decide ((toLowerStr value).data <:+: (toLowerStr row_value).data)
  else if op = "not_contains" then
    !(decide ((toLowerStr value).data <:+: (toLowerStr row_value).data))
  else if op = "starts_with" then
    List.isPrefixOf (toLowerStr value).data (toLowerStr row_value).data
  else if op = "ends_with" then
    List.isSuffixOf (toLowerStr value).data (toLowerStr row_value).data
  else if op = "less_than" then
    match pyFloat row_value, pyFloat value with
    | some a, some b => decide (a < b)
    | _, _ => false
  else if op = "greater_than" then
    match pyFloat row_value, pyFloat value with
    | some a, some b => decide (b < a)
    | _, _ => false
  else if op = "less_than_equal_to" then
    match pyFloat row_value, pyFloat value with
    | some a, some b => decide (a ≤ b)
    | _, _ => false
  else if op = "greater_than_equal_to" then
    match pyFloat row_value, pyFloat value with
    | some a, some b => decide (b ≤ a)
    | _, _ => false
  else if op = "between" then
    match pyFloat row_value, pyFloat value, pyFloat value2 with
    | some r, some lo, some hi => decide (lo ≤ r ∧ r ≤ hi)
    | _, _, _ => false
  else
    false

/-- Embedding of evaluate_condition, rules_service.py lines 77 to 226:
lowercase the operator, normalize the spelling, look the column up in the
row without case, then dispatch. Total, returns a Bool on every input. -/
def evaluate_condition (row : Row) (cond : Condition) : Bool :=
  eval_with_operator (normalize_operator (toLowerStr cond.operator))
    (lookup_row_value row cond.column) cond.value cond.value2

/-- Canonical operator names recognised by the dispatch of
evaluate_condition; any other normalized operator falls through to the
warning branch returning false. -/
def known_operators : List String :=
  ["equal_to", "not_equal_to", "contains", "not_contains", "starts_with",
   "ends_with", "less_than", "greater_than", "less_than_equal_to",
   "greater_than_equal_to", "between"]

/-! ## rules_service.py : rule engine -/

/-- Embedding of a rule dict, rules_service.py. -/
structure Rule where
  id : Int := 0
  name : String := ""
  is_active : Bool := true
  conditions : List Condition := []
deriving DecidableEq, Repr

/-- One iteration of the condition loop of evaluate_rule, rules_service.py
lines 253 to 278: the accumulator is None before the first condition and
is always set by it; afterwards the condition type selects conjunction,
disjunction, reset, or, for an unrecognised type, no change. -/
def condition_step (row : Row) (acc : Option Bool) (c : Condition) : Option Bool :=
  let condition_match := evaluate_condition row c
  match acc with
  | none => some condition_match
  | some result =>
    if c.ctype = "and" then some (result && condition_match)
    else if c.ctype = "or" then some (result || condition_match)
    else if c.ctype = "where" then some condition_match
    else some result

/-- Embedding of evaluate_rule, rules_service.py lines 229 to 280: fold the
conditions left to right starting from the unset accumulator; a rule with
no conditions returns false. -/
def evaluate_rule (row : Row) (rule : Rule) : Bool :=
  if rule.conditions.isEmpty then false
  else ((rule.conditions.foldl (condition_step row) none).getD false)

/-! ## models/color.py : data model -/

/-- Embedding of the ColorRaw pydantic model, models/color.py. The two
datetime fields are carried as their timestamp values, rationals, which is
all the ranking engine reads of them. -/
structure ColorRaw where
  message_id : Int
  ticker : String := ""
  sector : String := ""
  cusip : String := ""
  date : ℚ := 0
  price_level : ℚ := 0
  bid : ℚ := 0
  ask : ℚ := 0
  px : ℚ := 0
  source : String := ""
  bias : String := ""
  rank : Int := 1
  cov_price : ℚ := 0
  percent_diff : ℚ := 0
  price_diff : ℚ := 0
  confidence : Int := 5
  date_1 : ℚ := 0
  diff_status : String := ""
deriving DecidableEq, Repr

/-- Embedding of the ColorProcessed pydantic model, models/color.py: a
ColorRaw extended with the hierarchy fields computed by the ranking
engine. -/
structure ColorProcessed extends ColorRaw where
  is_parent : Bool := false
  parent_message_id : Option Int := none
  children_count : Nat := 0
deriving DecidableEq, Repr

/-! ## services/ranking_engine.py : ranking engine -/

/-- Embedding of the price component of the sort key built at
ranking_engine.py line 78: the Python expression px if px else inf maps a
falsy price, exactly 0, to positive infinity. -/
def pxKey (px : ℚ) : WithTop ℚ := if px = 0 then ⊤ else (px : WithTop ℚ)

/-- Sort key tuples produced at ranking_engine.py lines 75 to 79. -/
abbrev SortKey := ℚ × ℤ × WithTop ℚ

/-- Lexicographic strict order on sort key tuples, the order Python uses to
compare the key tuples of sorted. -/
def keyLt (x y : SortKey) : Prop :=
  x.1 < y.1 ∨ (x.1 = y.1 ∧ (x.2.1 < y.2.1 ∨ (x.2.1 = y.2.1 ∧ x.2.2 < y.2.2)))

/-- Reflexive closure of keyLt. -/
def keyLe (x y : SortKey) : Prop := keyLt x y ∨ x = y

instance : DecidableRel keyLt := fun x y => by
  unfold keyLt; infer_instance

instance : DecidableRel keyLe := fun x y => by
  unfold keyLe; infer_instance

/-- Embedding of the sort key lambda of RankingEngine at ranking_engine.py
lines 75 to 79: date negated so that more recent sorts first, then rank
ascending, then price ascending with 0 mapped to infinity. -/
def colorKey (c : ColorRaw) : SortKey := (-c.date, c.rank, pxKey c.px)

/-- Ordering of raw colors by their sort keys; the relation insertion sort
uses below. -/
def colorLe (a b : ColorRaw) : Prop := keyLe (colorKey a) (colorKey b)

instance : DecidableRel colorLe := fun a b => by
  unfold colorLe; infer_instance

/-- Embedding of RankingEngine._create_parent, ranking_engine.py lines 101
to 109. -/
def create_parent (c : ColorRaw) (children_count : Nat) : ColorProcessed :=
  { toColorRaw := c, is_parent := true, parent_message_id := none,
    children_count := children_count }

/-- Embedding of RankingEngine._create_child, ranking_engine.py lines 111
to 118. -/
def create_child (c : ColorRaw) (parent_id : Int) : ColorProcessed :=
  { toColorRaw := c, is_parent := false, parent_message_id := some parent_id,
    children_count := 0 }

/-- Embedding of RankingEngine._process_group, ranking_engine.py lines 64
to 99. Python sorted is a stable sort and stable sorts with the same key
agree, so it is modelled by List.insertionSort on colorLe, which inserts
each element after earlier elements with an equal key. The source indexes
sorted_colors[0] only on nonempty groups; the empty case returns the empty
list to keep the function total. -/
def process_group (colors : List ColorRaw) : List ColorProcessed :=
  match List.insertionSort colorLe colors with
  | [] => []
  | parent :: children =>
    if children.isEmpty then [create_parent parent 0]
    else
      create_parent parent children.length ::
        children.map (fun child => create_child child parent.message_id)

/-- Accumulates the cusip of one color into the ordered key list, the way a
Python dict records a new key at first occurrence. -/
def add_cusip_key (ks : List String) (k : String) : List String :=
  if k ∈ ks then ks else ks ++ [k]

/-- Keys of the defaultdict built by RankingEngine._group_by_cusip, in first
occurrence order. -/
def cusip_keys (l : List ColorRaw) : List String :=
  l.foldl (fun ks c => add_cusip_key ks c.cusip) []

/-- Embedding of RankingEngine._group_by_cusip, ranking_engine.py lines 57
to 62: one group per cusip in first occurrence order, each group keeping
the original relative order of its rows. -/
def group_by_cusip (l : List ColorRaw) : List (String × List ColorRaw) :=
  (cusip_keys l).map (fun k => (k, l.filter (fun c => c.cusip == k)))

/-- Embedding of RankingEngine.run_colors, ranking_engine.py lines 25 to
55: empty input short circuits, otherwise every cusip group is processed
and the results concatenated in group order. -/
def run_colors (raw_colors : List ColorRaw) : List ColorProcessed :=
  if raw_colors.isEmpty then []
  else ((group_by_cusip raw_colors).map (fun g => process_group g.2)).flatten

/-! ## services/output_service.py : output accumulator -/

/-- One row of the output store, the record dict built at output_service.py
lines 126 to 150. Date fields stay rationals here; the source formats them
as strings for presentation, which does not affect retention. -/
structure OutputRow where
  processed_at : String
  processing_type : String
  message_id : Int
  ticker : String
  sector : String
  cusip : String
  date : ℚ
  price_level : ℚ
  bid : ℚ
  ask : ℚ
  px : ℚ
  source : String
  bias : String
  rank : Int
  cov_price : ℚ
  percent_diff : ℚ
  price_diff : ℚ
  confidence : Int
  date_1 : ℚ
  diff_status : String
  is_parent : Bool
  parent_message_id : Option Int
  children_count : Nat
deriving DecidableEq, Repr

/-- Embedding of the per color record construction of
append_processed_colors, output_service.py lines 126 to 151. -/
def to_output_row (processed_at processing_type : String) (c : ColorProcessed) :
    OutputRow :=
  { processed_at := processed_at
    processing_type := processing_type
    message_id := c.message_id
    ticker := c.ticker
    sector := c.sector
    cusip := c.cusip
    date := c.date
    price_level := c.price_level
    bid := c.bid
    ask := c.ask
    px := c.px
    source := c.source
    bias := c.bias
    rank := c.rank
    cov_price := c.cov_price
    percent_diff := c.percent_diff
    price_diff := c.price_diff
    confidence := c.confidence
    date_1 := c.date_1
    diff_status := c.diff_status
    is_parent := c.is_parent
    parent_message_id := c.parent_message_id
    children_count := c.children_count }

/-- Embedding of one guarded pandas tail call of append_processed_colors:
keep only the most recent n rows when more than n are held, the pattern at
output_service.py lines 160 to 163 and 169 to 172. -/
def trim_to_last (n : Nat) (l : List OutputRow) : List OutputRow :=
  if l.length > n then l.drop (l.length - n) else l

/-- Embedding of OutputService.append_processed_colors, output_service.py
lines 103 to 184, as a function of the stored rows: an empty batch leaves
the store untouched and returns 0; otherwise the stored rows are trimmed to
the most recent 100 whenever more than 100 are stored, the new records are
concatenated, and the result is trimmed to the most recent 150 whenever it
exceeds 150. Returns the new store and the count of appended records. -/
def append_processed_colors (existing : List OutputRow)
    (colors : List ColorProcessed) (processed_at processing_type : String) :
    List OutputRow × Nat :=
  if colors.isEmpty then (existing, 0)
  else
    let records := colors.map (to_output_row processed_at processing_type)
    let combined := trim_to_last 100 existing ++ records
    (trim_to_last 150 combined, records.length)

/-! ## manual_upload_service.py : upload buffer -/

/-- Abstraction of the pandas DataFrame read from an uploaded Excel file,
holding the observations validate_excel_structure makes of it: the column
names, the row count, and whether each checked column casts to its required
type. -/
structure UploadDF where
  columns : List String
  nrows : Nat
  message_id_ok : Bool := true
  date_ok : Bool := true
  px_ok : Bool := true
  rank_ok : Bool := true
deriving DecidableEq, Repr

/-- Embedding of validate_excel_structure, manual_upload_service.py lines
107 to 152: collect the error list, valid when it stays empty. Required
columns come from the column configuration collaborator and are passed in.
Each type check runs only when its column is present. -/
def validate_excel_structure (required_columns : List String) (df : UploadDF) :
    Bool × List String :=
  let errors : List String := []
  let missing := required_columns.filter (fun c => !(df.columns.contains c))
  let errors :=
    if !missing.isEmpty then
      errors ++ ["Missing required columns: " ++ String.intercalate ", " missing]
    else errors
  let errors :=
    if df.nrows = 0 then errors ++ ["Excel file is empty (no data rows)"]
    else errors
  let errors :=
    if df.columns.contains "MESSAGE_ID" && !df.message_id_ok then
      errors ++ ["MESSAGE_ID column must contain integers"]
    else errors
  let errors :=
    if df.columns.contains "DATE" && !df.date_ok then
      errors ++ ["DATE column must contain valid dates"]
    else errors
  let errors :=
    if df.columns.contains "PX" && !df.px_ok then
      errors ++ ["PX column must contain numeric values"]
    else errors
  let errors :=
    if df.columns.contains "RANK" && !df.rank_ok then
      errors ++ ["RANK column must contain integers"]
    else errors
  (errors.isEmpty, errors)

/-- One entry of the manual upload history, manual_upload_service.py. -/
structure HistoryEntry where
  id : Int
  filename : String := ""
  uploaded_by : String := ""
  upload_time : String := ""
  status : String := "pending"
  error : String := ""
  rows_uploaded : Nat := 0
  processing_type : String := "MANUAL"
  processing_time : String := ""
  rows_processed : Nat := 0
deriving DecidableEq, Repr

/-- One entry of the buffered uploads queue, manual_upload_service.py lines
80 to 97. -/
structure BufferEntry where
  id : Int
  filename : String := ""
  file_path : String := ""
  uploaded_by : String := ""
  upload_time : String := ""
  status : String := "pending"
deriving DecidableEq, Repr

/-- Storage state touched by the manual upload service: upload history,
buffered uploads queue, and the output store the buffered processing
appends to. -/
structure UploadState where
  history : List HistoryEntry
  buffer : List BufferEntry
  output : List OutputRow
deriving DecidableEq, Repr

/-- Embedding of get_next_upload_id, manual_upload_service.py lines 55 to
60: one more than the maximal history id, or 1 for an empty history. -/
def get_next_upload_id (history : List HistoryEntry) : Int :=
  match history.map (fun e => e.id) with
  | [] => 1
  | x :: xs => xs.foldl max x + 1

/-- Embedding of mark_buffer_processed, manual_upload_service.py lines 100
to 105: every buffer entry with the given id is removed, whatever the
processing outcome was. -/
def mark_buffer_processed (buffer : List BufferEntry) (upload_id : Int) :
    List BufferEntry :=
  buffer.filter (fun f => f.id != upload_id)

/-- Updates the first history entry carrying the given id, the way the
Python loops over history with a break do. -/
def set_first_history (history : List HistoryEntry) (upload_id : Int)
    (f : HistoryEntry → HistoryEntry) : List HistoryEntry :=
  match history with
  | [] => []
  | e :: rest =>
    if e.id = upload_id then f e :: rest
    else e :: set_first_history rest upload_id f

/-- Status of the first history entry with the given id, if any. -/
def history_status (history : List HistoryEntry) (upload_id : Int) :
    Option String :=
  (history.find? (fun e => e.id == upload_id)).map (fun e => e.status)

/-- Embedding of process_manual_upload, manual_upload_service.py lines 218
to 337, as a state transition. The pandas read of the file content is
passed in as an Except, error carrying the exception text; required
columns come from the column configuration. Returns the new state and the
success flag of the returned dict. A failed read or failed validation
records a failed history entry and leaves the buffer untouched; a valid
upload is appended to the buffer queue and recorded as pending. -/
def process_manual_upload (required_columns : List String)
    (read_result : Except String UploadDF) (filename uploaded_by now : String)
    (st : UploadState) : UploadState × Bool :=
  let upload_id := get_next_upload_id st.history
  match read_result with
  | .error e =>
    ({ st with history :=
        { id := upload_id, filename := filename, uploaded_by := uploaded_by,
          upload_time := now, status := "failed", error := e,
          rows_uploaded := 0 } :: st.history }, false)
  | .ok df =>
    let v := validate_excel_structure required_columns df
    if !v.1 then
      ({ st with history :=
          { id := upload_id, filename := filename, uploaded_by := uploaded_by,
            upload_time := now, status := "failed",
            error := String.intercalate "; " v.2,
            rows_uploaded := 0 } :: st.history }, false)
    else
      let entry : BufferEntry :=
        { id := upload_id, filename := filename, file_path := filename,
          uploaded_by := uploaded_by, upload_time := now, status := "pending" }
      ({ st with
          buffer := st.buffer ++ [entry],
          history :=
            { id := upload_id, filename := filename, uploaded_by := uploaded_by,
              upload_time := now, status := "pending",
              rows_uploaded := df.nrows } :: st.history }, true)

/-- Embedding of parse_excel_to_colors, manual_upload_service.py lines 155
to 198. Row level pydantic parsing is abstracted: each row arrives already
classified as a parsed ColorRaw or a parse failure, and the function
separates parsed colors from row error messages exactly as the source
does. -/
def parse_excel_to_colors (rows : List (Option ColorRaw)) :
    List ColorRaw × List String :=
  (rows.filterMap (fun r => r),
   rows.filterMap (fun r => if r.isSome then none else some "row parse error"))

/-- Embedding of process_buffered_file, manual_upload_service.py lines 340
to 462, as a state transition. The pandas read of the buffered file is an
Except whose error text is the exception message; any failure marks the
first matching history entry failed with that error and removes the entry
from the buffer; success runs ranking and the output append, marks the
history entry success, and also removes the entry from the buffer. -/
def process_buffered_file (read_result : Except String (List (Option ColorRaw)))
    (entry : BufferEntry) (now : String) (st : UploadState) :
    UploadState × Bool :=
  match read_result with
  | .error e =>
    ({ st with
        history := set_first_history st.history entry.id
          (fun h => { h with status := "failed", error := e,
                             processing_time := now }),
        buffer := mark_buffer_processed st.buffer entry.id }, false)
  | .ok rows =>
    let parsed := parse_excel_to_colors rows
    let colors := parsed.1
    if colors.isEmpty then
      ({ st with
          history := set_first_history st.history entry.id
            (fun h => { h with status := "failed",
                               error := "No valid rows could be parsed",
                               processing_time := now }),
          buffer := mark_buffer_processed st.buffer entry.id }, false)
    else
      let processed_colors := run_colors colors
      let appended := append_processed_colors st.output processed_colors now "MANUAL"
      ({ st with
          history := set_first_history st.history entry.id
            (fun h => { h with status := "success", processing_time := now,
                               rows_processed := processed_colors.length }),
          buffer := mark_buffer_processed st.buffer entry.id,
          output := appended.1 }, true)

/-! ## cron_service.py : scheduler effects -/

/-- Identifier of a live APScheduler registration: the source uses the
strings cron_job_{id} for schedule registrations and
manual_trigger_{id}_{timestamp} for immediate one shot runs; the two
families never collide, which the constructors encode. -/
inductive JobKey where
  | cron (job_id : Int)
  | manual (job_id : Int) (ts : String)
deriving DecidableEq, Repr

/-- Registrations held by the background scheduler: key and, for cron
registrations, the cron expression driving the next run time. -/
structure SchedulerState where
  jobs : List (JobKey × String)
deriving DecidableEq, Repr

/-- Embedding of scheduler.get_job. -/
def sched_get_job (st : SchedulerState) (k : JobKey) : Option String :=
  (st.jobs.find? (fun j => j.1 == k)).map (fun j => j.2)

/-- Embedding of scheduler.remove_job. -/
def sched_remove_job (st : SchedulerState) (k : JobKey) : SchedulerState :=
  ⟨st.jobs.filter (fun j => j.1 != k)⟩

/-- Embedding of scheduler.add_job with replace_existing. -/
def sched_add_job (st : SchedulerState) (k : JobKey) (sched : String) :
    SchedulerState :=
  ⟨(st.jobs.filter (fun j => j.1 != k)) ++ [(k, sched)]⟩

/-- Embedding of one stored cron job dict, cron_service.py lines 261 to
270. -/
structure CronJob where
  id : Int
  name : String := ""
  schedule : String := ""
  is_active : Bool := true
deriving DecidableEq, Repr

/-- Top level names bound in the module namespace of cron_service.py:
imported names, module globals and the functions the module defines. The
name parse_cron_schedule, called at line 418 inside restore_schedule, is
not among them and is not defined anywhere else in the repository, so the
call raises NameError at run time. -/
def cron_service_defined_names : List String :=
  ["BackgroundScheduler", "CronTrigger", "datetime", "timedelta", "Dict",
   "List", "Optional", "logging", "sys", "os", "pytz", "storage",
   "DatabaseService", "RankingEngine", "get_output_service", "apply_rules",
   "ColorRaw", "get_buffered_files", "process_buffered_file", "logger",
   "TIMEZONE", "scheduler", "db_service", "ranking_engine", "output_service",
   "get_all_jobs", "get_job_by_id", "save_jobs", "get_next_job_id",
   "get_execution_logs", "save_execution_log", "run_automation_task",
   "create_job", "update_job", "delete_job", "toggle_job",
   "trigger_job_manually", "get_next_run_time", "initialize_scheduler"]

/-- Embedding of the inner restore_schedule closure of
trigger_job_manually, cron_service.py lines 408 to 428, run on its
background thread after the ten second sleep. The add_job call spreads the
result of parse_cron_schedule(job["schedule"]); since that name is bound
nowhere, evaluating the argument raises NameError, the except at line 424
catches it and only logs, so the scheduler state is returned unchanged. -/
def restore_schedule (job : CronJob) (st : SchedulerState) : SchedulerState :=
  if job.is_active then
    if "parse_cron_schedule" ∈ cron_service_defined_names then
      sched_add_job st (JobKey.cron job.id) job.schedule
    else st
  else st

/-- Embedding of the scheduler effects of trigger_job_manually,
cron_service.py lines 377 to 453, up to the spawn of the restore thread:
with override on an active job whose schedule is registered, the
registration is removed at once; in every case a one shot manual run is
registered under a fresh manual key. -/
def trigger_job_manually (st : SchedulerState) (job : CronJob)
    (override : Bool) (ts : String) : SchedulerState :=
  let st1 :=
    if override && job.is_active then
      match sched_get_job st (JobKey.cron job.id) with
      | some _ => sched_remove_job st (JobKey.cron job.id)
      | none => st
    else st
  sched_add_job st1 (JobKey.manual job.id ts) ""

/-- Embedding of get_next_run_time, cron_service.py lines 455 to 460: the
next run of the cron registration of the job, if one is live. The next
fire time APScheduler derives from a cron expression is abstracted as the
function next_fire of the expression. -/
def get_next_run_time (next_fire : String → Option String)
    (st : SchedulerState) (job_id : Int) : Option String :=
  match sched_get_job st (JobKey.cron job_id) with
  | some sched => next_fire sched
  | none => none

/-! ## Helper lemmas : condition evaluator and rule engine -/

theorem evaluate_condition_between (row : Row) (t c v v2 : String) :
    evaluate_condition row ⟨t, c, "between", v, v2⟩ =
      match pyFloat (lookup_row_value row c), pyFloat v, pyFloat v2 with
      | some r, some lo, some hi => decide (lo ≤ r ∧ r ≤ hi)
      | _, _, _ => false := rfl

theorem eval_with_operator_unknown (op rv v v2 : String)
    (h : op ∉ known_operators) : eval_with_operator op rv v v2 = false := by
  have h1 : op ≠ "equal_to" := fun e => h (by rw [e]; decide)
  have h2 : op ≠ "not_equal_to" := fun e => h (by rw [e]; decide)
  have h3 : op ≠ "contains" := fun e => h (by rw [e]; decide)
  have h4 : op ≠ "not_contains" := fun e => h (by rw [e]; decide)
  have h5 : op ≠ "starts_with" := fun e => h (by rw [e]; decide)
  have h6 : op ≠ "ends_with" := fun e => h (by rw [e]; decide)
  have h7 : op ≠ "less_than" := fun e => h (by rw [e]; decide)
  have h8 : op ≠ "greater_than" := fun e => h (by rw [e]; decide)
  have h9 : op ≠ "less_than_equal_to" := fun e => h (by rw [e]; decide)
  have h10 : op ≠ "greater_than_equal_to" := fun e => h (by rw [e]; decide)
  have h11 : op ≠ "between" := fun e => h (by rw [e]; decide)
  unfold eval_with_operator
  rw [if_neg h1, if_neg h2, if_neg h3, if_neg h4, if_neg h5, if_neg h6,
    if_neg h7, if_neg h8, if_neg h9, if_neg h10, if_neg h11]

theorem lookup_row_value_eq_empty (row : Row) (c : String)
    (h : ∀ kv ∈ row, toLowerStr kv.1 ≠ toLowerStr c) :
    lookup_row_value row c = "" := by
  unfold lookup_row_value
  rw [List.find?_eq_none.mpr]
  intro kv hkv
  simpa using h kv hkv

theorem condition_step_none (row : Row) (c : Condition) :
    condition_step row none c = some (evaluate_condition row c) := rfl

theorem condition_step_and (row : Row) (r : Bool) (c : Condition)
    (h : c.ctype = "and") :
    condition_step row (some r) c = some (r && evaluate_condition row c) := by
  unfold condition_step
  rw [h]
  simp

theorem condition_step_or (row : Row) (r : Bool) (c : Condition)
    (h : c.ctype = "or") :
    condition_step row (some r) c = some (r || evaluate_condition row c) := by
  unfold condition_step
  rw [h]
  simp

theorem condition_step_where (row : Row) (r : Bool) (c : Condition)
    (h : c.ctype = "where") :
    condition_step row (some r) c = some (evaluate_condition row c) := by
  unfold condition_step
  rw [h]
  simp

/-! ## Claim C3 : rule chain semantics -/

/-- C3: evaluate_rule folds the conditions left to right: the first
condition sets the accumulator whatever its type, an AND condition
conjoins its own evaluation with the running result, an OR condition
disjoins it, and a later WHERE resets the accumulator; hence a rule with
conditions WHERE A, AND B, OR C evaluates to (A and B) or C, which
differs from A and (B or C) whenever A is false and C is true; and a rule
with no conditions evaluates to false on every row. -/
theorem rule_chain_semantics :
    (∀ (row : Row) (rule : Rule), rule.conditions = [] →
      evaluate_rule row rule = false)
    ∧ (∀ (row : Row) (rule : Rule) (c : Condition), rule.conditions = [c] →
      evaluate_rule row rule = evaluate_condition row c)
    ∧ (∀ (row : Row) (rule : Rule) (ca cb cc : Condition),
      rule.conditions = [ca, cb, cc] → cb.ctype = "and" → cc.ctype = "or" →
      evaluate_rule row rule =
        ((evaluate_condition row ca && evaluate_condition row cb)
          || evaluate_condition row cc))
    ∧ (∀ (row : Row) (rule : Rule) (cs : List Condition) (c : Condition),
      rule.conditions = cs ++ [c] → c.ctype = "where" →
      evaluate_rule row rule = evaluate_condition row c)
    ∧ (∀ (row : Row) (rule : Rule) (ca cb cc : Condition),
      rule.conditions = [ca, cb, cc] → cb.ctype = "and" → cc.ctype = "or" →
      evaluate_condition row ca = false → evaluate_condition row cc = true →
      evaluate_rule row rule = true
        ∧ (evaluate_condition row ca
            && (evaluate_condition row cb || evaluate_condition row cc)) = false) := by
  refine ⟨?_, ?_, ?_, ?_, ?_⟩
  · intro row rule h
    unfold evaluate_rule
    rw [h]
    rfl
  · intro row rule c h
    unfold evaluate_rule
    rw [h]
    rfl
  · intro row rule ca cb cc h hb hc
    unfold evaluate_rule
    rw [h]
    simp only [List.isEmpty_cons, List.foldl_cons, List.foldl_nil,
      condition_step_none]
    rw [condition_step_and row _ cb hb, condition_step_or row _ cc hc]
    rfl
  · intro row rule cs c h hw
    unfold evaluate_rule
    rw [h, List.foldl_append]
    have hne : (cs ++ [c]).isEmpty = false := by simp
    rw [hne]
    simp only [Bool.false_eq_true, if_false, List.foldl_cons, List.foldl_nil]
    cases hacc : List.foldl (condition_step row) none cs with
    | none => rw [condition_step_none]; rfl
    | some r => rw [condition_step_where row r c hw]; rfl
  · intro row rule ca cb cc h hb hc ha hcc
    have h3 :
        evaluate_rule row rule =
          ((evaluate_condition row ca && evaluate_condition row cb)
            || evaluate_condition row cc) := by
      unfold evaluate_rule
      rw [h]
      simp only [List.isEmpty_cons, List.foldl_cons, List.foldl_nil,
        condition_step_none]
      rw [condition_step_and row _ cb hb, condition_step_or row _ cc hc]
      rfl
    rw [h3, ha, hcc]
    simp

/-- Witness for C3 at a concrete rule and row: with A false, B true, C true
the rule evaluates to true while the right associated reading is false. -/
theorem rule_chain_semantics_witness :
    evaluate_rule [("PX", "5")]
        { conditions := [⟨"where", "PX", "equals", "7", ""⟩,
                         ⟨"and", "PX", "less than", "10", ""⟩,
                         ⟨"or", "PX", "greater than", "3", ""⟩] } = true
      ∧ (evaluate_condition [("PX", "5")] ⟨"where", "PX", "equals", "7", ""⟩
          && (evaluate_condition [("PX", "5")] ⟨"and", "PX", "less than", "10", ""⟩
              || evaluate_condition [("PX", "5")] ⟨"or", "PX", "greater than", "3", ""⟩))
        = false :=
  rule_chain_semantics.2.2.2.2 [("PX", "5")] _ _ _ _ rfl rfl rfl
    (by decide) (by decide)

/-! ## Claim C6 : between correctness -/

/-- C6: with value 10 and value2 20, a between condition is true exactly
when the row value parses to a number v with 10 less or equal v less or
equal 20, both boundaries inclusive; any parse failure gives false and the
evaluator is a total function, so no exception propagates. The closed
conjuncts check the boundary values 10 and 20 and the near misses 9.99 and
20.01. -/
theorem between_correctness :
    (∀ (row : Row) (t c : String),
      evaluate_condition row ⟨t, c, "between", "10", "20"⟩ = true
        ↔ ∃ v, pyFloat (lookup_row_value row c) = some v ∧ 10 ≤ v ∧ v ≤ 20)
    ∧ evaluate_condition [("PX", "10")] ⟨"where", "PX", "between", "10", "20"⟩ = true
    ∧ evaluate_condition [("PX", "20")] ⟨"where", "PX", "between", "10", "20"⟩ = true
    ∧ evaluate_condition [("PX", "9.99")] ⟨"where", "PX", "between", "10", "20"⟩ = false
    ∧ evaluate_condition [("PX", "20.01")] ⟨"where", "PX", "between", "10", "20"⟩ = false := by
  refine ⟨?_, by decide, by decide, by decide, by decide⟩
  intro row t c
  rw [evaluate_condition_between]
  have h10 : pyFloat "10" = some 10 := by decide
  have h20 : pyFloat "20" = some 20 := by decide
  rw [h10, h20]
  cases h : pyFloat (lookup_row_value row c) with
  | none => simp
  | some r => simp

/-- Witness for C6: the general characterization applied at a concrete row
whose value 15 lies inside the bounds. -/
theorem between_correctness_witness :
    evaluate_condition [("PX", "15")] ⟨"where", "PX", "between", "10", "20"⟩ = true :=
  (between_correctness.1 [("PX", "15")] "where" "PX").mpr
    ⟨15, by decide, by decide, by decide⟩

/-! ## Claim C7 : operator spelling normalization -/

/-- C7: every accepted surface spelling of an operator evaluates
identically to the canonical spelling on all inputs, including the mixed
case spellings, since the operator is lowercased before normalization. -/
theorem operator_spelling_equivalence :
    ∀ (row : Row) (t c v v2 : String),
      (evaluate_condition row ⟨t, c, "is equal to", v, v2⟩
          = evaluate_condition row ⟨t, c, "equals", v, v2⟩
        ∧ evaluate_condition row ⟨t, c, "equals", v, v2⟩
          = evaluate_condition row ⟨t, c, "equal to", v, v2⟩
        ∧ evaluate_condition row ⟨t, c, "equal to", v, v2⟩
          = evaluate_condition row ⟨t, c, "equal_to", v, v2⟩
        ∧ evaluate_condition row ⟨t, c, "Equals", v, v2⟩
          = evaluate_condition row ⟨t, c, "equal_to", v, v2⟩)
      ∧ (evaluate_condition row ⟨t, c, "is not equal to", v, v2⟩
          = evaluate_condition row ⟨t, c, "not_equal_to", v, v2⟩
        ∧ evaluate_condition row ⟨t, c, "not equal to", v, v2⟩
          = evaluate_condition row ⟨t, c, "not_equal_to", v, v2⟩
        ∧ evaluate_condition row ⟨t, c, "not_equals", v, v2⟩
          = evaluate_condition row ⟨t, c, "not_equal_to", v, v2⟩)
      ∧ (evaluate_condition row ⟨t, c, "is less than", v, v2⟩
          = evaluate_condition row ⟨t, c, "less_than", v, v2⟩
        ∧ evaluate_condition row ⟨t, c, "less than", v, v2⟩
          = evaluate_condition row ⟨t, c, "less_than", v, v2⟩)
      ∧ (evaluate_condition row ⟨t, c, "is greater than", v, v2⟩
          = evaluate_condition row ⟨t, c, "greater_than", v, v2⟩
        ∧ evaluate_condition row ⟨t, c, "greater than", v, v2⟩
          = evaluate_condition row ⟨t, c, "greater_than", v, v2⟩)
      ∧ (evaluate_condition row ⟨t, c, "less than equal to", v, v2⟩
          = evaluate_condition row ⟨t, c, "less_or_equal", v, v2⟩)
      ∧ (evaluate_condition row ⟨t, c, "greater than equal to", v, v2⟩
          = evaluate_condition row ⟨t, c, "greater_or_equal", v, v2⟩)
      ∧ (evaluate_condition row ⟨t, c, "does not contain", v, v2⟩
          = evaluate_condition row ⟨t, c, "not_contains", v, v2⟩)
      ∧ (evaluate_condition row ⟨t, c, "starts with", v, v2⟩
          = evaluate_condition row ⟨t, c, "starts_with", v, v2⟩)
      ∧ (evaluate_condition row ⟨t, c, "ends with", v, v2⟩
          = evaluate_condition row ⟨t, c, "ends_with", v, v2⟩)
      ∧ (evaluate_condition row ⟨t, c, "Between", v, v2⟩
          = evaluate_condition row ⟨t, c, "between", v, v2⟩) :=
  fun _ _ _ _ _ =>
    ⟨⟨rfl, rfl, rfl, rfl⟩, ⟨rfl, rfl, rfl⟩, ⟨rfl, rfl⟩, ⟨rfl, rfl⟩,
      rfl, rfl, rfl, rfl, rfl, rfl⟩

/-! ## Claim C8 : evaluator totality -/

/-- C8: the evaluator is a total Bool valued function on every row and
condition, so it never raises; the column is looked up without case
against the row keys; a column absent from the row behaves exactly as the
empty string, the value the source substitutes; and a condition whose
operator normalizes to no known canonical operator evaluates to false. -/
theorem evaluator_totality :
    (∀ (row : Row) (cond : Condition),
      normalize_operator (toLowerStr cond.operator) ∉ known_operators →
      evaluate_condition row cond = false)
    ∧ (∀ (row : Row) (cond : Condition),
      (∀ kv ∈ row, toLowerStr kv.1 ≠ toLowerStr cond.column) →
      evaluate_condition row cond = evaluate_condition [] cond)
    ∧ (∀ (k v c : String) (rest : Row),
      toLowerStr k = toLowerStr c → lookup_row_value ((k, v) :: rest) c = v) := by
  refine ⟨?_, ?_, ?_⟩
  · intro row cond h
    exact eval_with_operator_unknown _ _ _ _ h
  · intro row cond h
    unfold evaluate_condition
    rw [lookup_row_value_eq_empty row cond.column h]
    rfl
  · intro k v c rest h
    unfold lookup_row_value
    rw [List.find?_cons_of_pos]
    simpa using h

/-- Witness for C8: an operator with no canonical form evaluates to false,
and a lookup under a differently cased key succeeds. -/
theorem evaluator_totality_witness :
    (normalize_operator (toLowerStr "frobnicate") ∉ known_operators)
      ∧ evaluate_condition [("A", "1")] ⟨"where", "A", "frobnicate", "", ""⟩ = false
      ∧ lookup_row_value [("Px", "7")] "PX" = "7" :=
  ⟨by decide, evaluator_totality.1 _ _ (by decide),
    evaluator_totality.2.2 "Px" "7" "PX" [] (by decide)⟩

/-! ## Helper lemmas : sort key order -/

theorem keyLt_irrefl (x : SortKey) : ¬ keyLt x x := by
  obtain ⟨a, b, c⟩ := x
  simp only [keyLt]
  rintro (h | ⟨-, h | ⟨-, h⟩⟩) <;> exact lt_irrefl _ h

theorem keyLt_trans {x y z : SortKey} (h1 : keyLt x y) (h2 : keyLt y z) :
    keyLt x z := by
  obtain ⟨a, b, c⟩ := x
  obtain ⟨d, e, f⟩ := y
  obtain ⟨g, i, j⟩ := z
  simp only [keyLt] at h1 h2 ⊢
  rcases h1 with h1 | ⟨rfl, h1⟩
  · rcases h2 with h2 | ⟨rfl, h2⟩
    · exact Or.inl (lt_trans h1 h2)
    · exact Or.inl h1
  · rcases h2 with h2 | ⟨rfl, h2⟩
    · exact Or.inl h2
    · refine Or.inr ⟨rfl, ?_⟩
      rcases h1 with h1 | ⟨rfl, h1⟩
      · rcases h2 with h2 | ⟨rfl, h2⟩
        · exact Or.inl (lt_trans h1 h2)
        · exact Or.inl h1
      · rcases h2 with h2 | ⟨rfl, h2⟩
        · exact Or.inl h2
        · exact Or.inr ⟨rfl, lt_trans h1 h2⟩

theorem keyLt_trichotomy (x y : SortKey) : keyLt x y ∨ x = y ∨ keyLt y x := by
  obtain ⟨a, b, c⟩ := x
  obtain ⟨d, e, f⟩ := y
  simp only [keyLt, Prod.mk.injEq]
  rcases lt_trichotomy a d with h | rfl | h
  · exact Or.inl (Or.inl h)
  · rcases lt_trichotomy b e with h | rfl | h
    · exact Or.inl (Or.inr ⟨rfl, Or.inl h⟩)
    · rcases lt_trichotomy c f with h | rfl | h
      · exact Or.inl (Or.inr ⟨rfl, Or.inr ⟨rfl, h⟩⟩)
      · exact Or.inr (Or.inl ⟨rfl, rfl, rfl⟩)
      · exact Or.inr (Or.inr (Or.inr ⟨rfl, Or.inr ⟨rfl, h⟩⟩))
    · exact Or.inr (Or.inr (Or.inr ⟨rfl, Or.inl h⟩))
  · exact Or.inr (Or.inr (Or.inl h))

theorem keyLe_refl (x : SortKey) : keyLe x x := Or.inr rfl

theorem keyLe_of_keyLt {x y : SortKey} (h : keyLt x y) : keyLe x y := Or.inl h

theorem keyLe_trans {x y z : SortKey} (h1 : keyLe x y) (h2 : keyLe y z) :
    keyLe x z := by
  rcases h1 with h1 | rfl
  · rcases h2 with h2 | rfl
    · exact Or.inl (keyLt_trans h1 h2)
    · exact Or.inl h1
  · exact h2

theorem not_keyLe_of_keyLt {x y : SortKey} (h : keyLt x y) : ¬ keyLe y x := by
  intro h2
  rcases h2 with h2 | h2
  · exact keyLt_irrefl x (keyLt_trans h h2)
  · rw [h2] at h
    exact keyLt_irrefl x h

theorem keyLt_of_not_keyLe {x y : SortKey} (h : ¬ keyLe x y) : keyLt y x := by
  rcases keyLt_trichotomy x y with h1 | rfl | h1
  · exact absurd (Or.inl h1) h
  · exact absurd (Or.inr rfl) h
  · exact h1

/-! ## Helper lemmas : insertion sort selects the first minimum -/

theorem head_insertionSort_first_min :
    ∀ (l : List ColorRaw), l ≠ [] →
      ∃ i : Fin l.length,
        (List.insertionSort colorLe l).head? = some (l.get i)
          ∧ (∀ c ∈ l, keyLe (colorKey (l.get i)) (colorKey c))
          ∧ ∀ j : Fin l.length, j.val < i.val →
              keyLt (colorKey (l.get i)) (colorKey (l.get j)) := by
  intro l
  induction l with
  | nil => intro h; exact absurd rfl h
  | cons a t ih =>
    intro _
    by_cases hte : t = []
    · subst hte
      refine ⟨⟨0, by simp⟩, rfl, ?_, ?_⟩
      · intro c hc
        rw [List.mem_singleton.mp hc]
        exact keyLe_refl _
      · intro j hj
        have hj0 : j.val < 0 := hj
        omega
    · obtain ⟨i, hhead, hmin, hfirst⟩ := ih hte
      cases hsort : List.insertionSort colorLe t with
      | nil =>
        exfalso
        have hlen := (List.perm_insertionSort colorLe t).length_eq
        rw [hsort] at hlen
        simp only [List.length_nil] at hlen
        exact hte (List.length_eq_zero.mp hlen.symm)
      | cons p cs =>
        have hp : p = t.get i := by
          rw [hsort] at hhead
          exact Option.some_inj.mp hhead
        have hstep : List.insertionSort colorLe (a :: t)
            = List.orderedInsert colorLe a (p :: cs) := by
          simp only [List.insertionSort, hsort]
        by_cases hab : colorLe a p
        · refine ⟨⟨0, by simp⟩, ?_, ?_, ?_⟩
          · rw [hstep]
            simp only [List.orderedInsert]
            rw [if_pos hab]
            rfl
          · intro c hc
            rcases List.mem_cons.mp hc with rfl | hc2
            · exact keyLe_refl _
            · refine keyLe_trans ?_ (hmin c hc2)
              have hab2 : keyLe (colorKey a) (colorKey (t.get i)) := by
                rw [← hp]
                exact hab
              exact hab2
          · intro j hj
            have hj0 : j.val < 0 := hj
            omega
        · have hlt : keyLt (colorKey p) (colorKey a) := keyLt_of_not_keyLe hab
          have hibound : i.val + 1 < (a :: t).length := by
            have := i.isLt
            simp only [List.length_cons]
            omega
          have hgeti : (a :: t).get ⟨i.val + 1, hibound⟩ = t.get i := rfl
          refine ⟨⟨i.val + 1, hibound⟩, ?_, ?_, ?_⟩
          · rw [hstep]
            simp only [List.orderedInsert]
            rw [if_neg hab, hgeti, ← hp]
            rfl
          · intro c hc
            rw [hgeti]
            rcases List.mem_cons.mp hc with rfl | hc2
            · rw [← hp]
              exact keyLe_of_keyLt hlt
            · exact hmin c hc2
          · intro j hj
            rw [hgeti]
            rcases j with ⟨jv, hjv⟩
            cases jv with
            | zero =>
              have hga : (a :: t).get ⟨0, hjv⟩ = a := rfl
              rw [hga, ← hp]
              exact hlt
            | succ j2 =>
              have hjb : j2 < t.length := by simpa using hjv
              have hgj : (a :: t).get ⟨j2 + 1, hjv⟩ = t.get ⟨j2, hjb⟩ := rfl
              rw [hgj]
              have hj2 : j2 < i.val := by
                have : j2 + 1 < i.val + 1 := hj
                omega
              exact hfirst ⟨j2, hjb⟩ hj2

/-! ## Helper lemmas : process_group -/

theorem process_group_eq (g : List ColorRaw) (p : ColorRaw) (cs : List ColorRaw)
    (h : List.insertionSort colorLe g = p :: cs) :
    process_group g
      = create_parent p cs.length
          :: cs.map (fun c => create_child c p.message_id) := by
  unfold process_group
  rw [h]
  cases cs with
  | nil => rfl
  | cons c cs2 => rfl

theorem length_insertionSort_colorLe (g : List ColorRaw) :
    (List.insertionSort colorLe g).length = g.length :=
  (List.perm_insertionSort colorLe g).length_eq

theorem insertionSort_ne_nil (g : List ColorRaw) (h : g ≠ []) :
    List.insertionSort colorLe g ≠ [] := by
  intro he
  have hlen := length_insertionSort_colorLe g
  rw [he] at hlen
  simp only [List.length_nil] at hlen
  exact h (List.length_eq_zero.mp hlen.symm)

theorem mem_process_group (g : List ColorRaw) (x : ColorProcessed)
    (hx : x ∈ process_group g) : x.toColorRaw ∈ g := by
  cases hsort : List.insertionSort colorLe g with
  | nil =>
    unfold process_group at hx
    rw [hsort] at hx
    simp at hx
  | cons p cs =>
    rw [process_group_eq g p cs hsort] at hx
    have hmem : ∀ y : ColorRaw, y ∈ p :: cs → y ∈ g := by
      intro y hy
      rw [← hsort] at hy
      exact (List.mem_insertionSort colorLe).mp hy
    rcases List.mem_cons.mp hx with rfl | hx2
    · exact hmem p (List.mem_cons_self _ _)
    · obtain ⟨c, hc, rfl⟩ := List.mem_map.mp hx2
      exact hmem c (List.mem_cons_of_mem _ hc)

theorem length_process_group (g : List ColorRaw) :
    (process_group g).length = g.length := by
  cases hsort : List.insertionSort colorLe g with
  | nil =>
    unfold process_group
    rw [hsort]
    have hlen := length_insertionSort_colorLe g
    rw [hsort] at hlen
    simpa using hlen
  | cons p cs =>
    rw [process_group_eq g p cs hsort]
    have hlen := length_insertionSort_colorLe g
    rw [hsort] at hlen
    simp only [List.length_cons, List.length_map]
    simp only [List.length_cons] at hlen
    omega

/-! ## Claim C4 : ranking parent selection -/

/-- C4 amended: the record chosen as parent of a nonempty group is the
first minimum, in original order, of the lexicographic sort key with date
descending, rank ascending, and the price component pxKey ascending, where
pxKey maps a price of exactly 0 to positive infinity and every other price
to itself. Equivalently the parent key is less or equal every key of the
group and strictly below the key of every earlier record; ties beyond the
key preserve the original relative order. The amendment, forced by the
counterexample, is only about price 0: the claim as frozen says the lower
price always wins on equal date and rank, but a record with price 0 loses
to any record with positive price. -/
theorem ranking_parent_selection (g : List ColorRaw) (h : g ≠ []) :
    ∃ i : Fin g.length,
      (process_group g).head? = some (create_parent (g.get i) (g.length - 1))
        ∧ (∀ c ∈ g, keyLe (colorKey (g.get i)) (colorKey c))
        ∧ ∀ j : Fin g.length, j.val < i.val →
            keyLt (colorKey (g.get i)) (colorKey (g.get j)) := by
  obtain ⟨i, hhead, hmin, hfirst⟩ := head_insertionSort_first_min g h
  cases hsort : List.insertionSort colorLe g with
  | nil => exact absurd hsort (insertionSort_ne_nil g h)
  | cons p cs =>
    have hp : p = g.get i := by
      rw [hsort] at hhead
      exact Option.some_inj.mp hhead
    have hcs : cs.length = g.length - 1 := by
      have hlen := length_insertionSort_colorLe g
      rw [hsort] at hlen
      simp only [List.length_cons] at hlen
      omega
    refine ⟨i, ?_, hmin, hfirst⟩
    rw [process_group_eq g p cs hsort]
    simp only [List.head?_cons, hp, hcs]

/-- Three rows of the specification example: dates 1, 3, 2, ranks 2, 1, 1,
prices 100, 50, 90, all one cusip. -/
def example_row_a : ColorRaw :=
  { message_id := 1, cusip := "C1", date := 1, rank := 2, px := 100 }

/-- Second row of the specification example, the most recent one. -/
def example_row_b : ColorRaw :=
  { message_id := 2, cusip := "C1", date := 3, rank := 1, px := 50 }

/-- Third row of the specification example. -/
def example_row_c : ColorRaw :=
  { message_id := 3, cusip := "C1", date := 2, rank := 1, px := 90 }

/-- Witness for C4 on the specification example group: the most recent row,
message 2, is chosen as parent. -/
theorem ranking_parent_selection_witness :
    (process_group [example_row_a, example_row_b, example_row_c]).head?.map
        (fun c => c.message_id) = some 2
      ∧ ∃ i : Fin ([example_row_a, example_row_b, example_row_c]
            : List ColorRaw).length,
          (process_group [example_row_a, example_row_b, example_row_c]).head?
            = some (create_parent
                ([example_row_a, example_row_b, example_row_c].get i)
                (([example_row_a, example_row_b, example_row_c]
                  : List ColorRaw).length - 1)) := by
  refine ⟨by decide, ?_⟩
  obtain ⟨i, h1, -, -⟩ :=
    ranking_parent_selection [example_row_a, example_row_b, example_row_c]
      (by decide)
  exact ⟨i, h1⟩

/-- Row with price exactly 0 used in the counterexample. -/
def cex_row_zero : ColorRaw :=
  { message_id := 1, cusip := "Z", date := 4, rank := 1, px := 0 }

/-- Row with positive price used in the counterexample. -/
def cex_row_pos : ColorRaw :=
  { message_id := 2, cusip := "Z", date := 4, rank := 1, px := 100 }

/-- Counterexample for C4 as frozen: two records with identical date and
rank, prices 0 and 100; the claim says the lower price, 0, wins, but the
code gives price 0 the sort key infinity and chooses the record with price
100 as parent. -/
theorem ranking_parent_selection_counterexample :
    cex_row_zero.px < cex_row_pos.px
      ∧ cex_row_zero.date = cex_row_pos.date
      ∧ cex_row_zero.rank = cex_row_pos.rank
      ∧ (process_group [cex_row_zero, cex_row_pos]).head?.map
          (fun c => c.message_id) = some 2 := by
  refine ⟨by decide, by decide, by decide, by decide⟩

/-! ## Claim C10 : zero price ranks as missing -/

/-- C10: a raw record whose price is exactly 0 receives the price sort key
infinity, so on equal date and rank it sorts after every record with
positive price and is never chosen as parent over one, in either input
order. -/
theorem zero_px_ranks_last (a b : ColorRaw) (ha : a.px = 0) (hb : 0 < b.px)
    (hd : a.date = b.date) (hr : a.rank = b.rank) :
    pxKey a.px = ⊤
      ∧ keyLt (colorKey b) (colorKey a)
      ∧ (process_group [a, b]).head? = some (create_parent b 1)
      ∧ (process_group [b, a]).head? = some (create_parent b 1) := by
  have hpa : pxKey a.px = ⊤ := by
    rw [ha]
    unfold pxKey
    rw [if_pos rfl]
  have hpb : pxKey b.px = (b.px : WithTop ℚ) := by
    unfold pxKey
    rw [if_neg (ne_of_gt hb)]
  have hkey : keyLt (colorKey b) (colorKey a) := by
    unfold colorKey keyLt
    refine Or.inr ⟨by rw [hd], Or.inr ⟨by rw [hr], ?_⟩⟩
    rw [hpa, hpb]
    exact WithTop.coe_lt_top b.px
  have hnab : ¬ colorLe a b := not_keyLe_of_keyLt hkey
  have hba : colorLe b a := keyLe_of_keyLt hkey
  have hs1 : List.insertionSort colorLe [a, b] = [b, a] := by
    simp only [List.insertionSort, List.orderedInsert]
    rw [if_neg hnab]
  have hs2 : List.insertionSort colorLe [b, a] = [b, a] := by
    simp only [List.insertionSort, List.orderedInsert]
    rw [if_pos hba]
  refine ⟨hpa, hkey, ?_, ?_⟩
  · rw [process_group_eq [a, b] b [a] hs1]
    rfl
  · rw [process_group_eq [b, a] b [a] hs2]
    rfl

/-- Witness for C10 at concrete records. -/
theorem zero_px_ranks_last_witness :
    pxKey cex_row_zero.px = ⊤
      ∧ keyLt (colorKey cex_row_pos) (colorKey cex_row_zero)
      ∧ (process_group [cex_row_zero, cex_row_pos]).head?
          = some (create_parent cex_row_pos 1)
      ∧ (process_group [cex_row_pos, cex_row_zero]).head?
          = some (create_parent cex_row_pos 1) :=
  zero_px_ranks_last cex_row_zero cex_row_pos (by decide) (by decide)
    (by decide) (by decide)

/-! ## Helper lemmas : grouping by cusip -/

theorem mem_add_cusip_key (ks : List String) (x k : String) :
    k ∈ add_cusip_key ks x ↔ k ∈ ks ∨ k = x := by
  unfold add_cusip_key
  split_ifs with hm
  · constructor
    · exact Or.inl
    · rintro (h | rfl)
      · exact h
      · exact hm
  · simp [List.mem_append]

theorem mem_cusip_keys_aux (l : List ColorRaw) (acc : List String) (k : String) :
    k ∈ l.foldl (fun ks c => add_cusip_key ks c.cusip) acc
      ↔ k ∈ acc ∨ k ∈ l.map (fun c => c.cusip) := by
  induction l generalizing acc with
  | nil => simp
  | cons c t ih =>
    simp only [List.foldl_cons, List.map_cons, List.mem_cons]
    rw [ih, mem_add_cusip_key]
    tauto

theorem mem_cusip_keys (l : List ColorRaw) (k : String) :
    k ∈ cusip_keys l ↔ k ∈ l.map (fun c => c.cusip) := by
  unfold cusip_keys
  rw [mem_cusip_keys_aux]
  simp

theorem nodup_add_cusip_key (ks : List String) (x : String) (h : ks.Nodup) :
    (add_cusip_key ks x).Nodup := by
  unfold add_cusip_key
  split_ifs with hm
  · exact h
  · refine List.Nodup.append h (List.nodup_singleton x) ?_
    intro a ha hax
    rw [List.mem_singleton] at hax
    subst hax
    exact hm ha

theorem nodup_cusip_keys_aux (l : List ColorRaw) (acc : List String)
    (h : acc.Nodup) :
    (l.foldl (fun ks c => add_cusip_key ks c.cusip) acc).Nodup := by
  induction l generalizing acc with
  | nil => exact h
  | cons c t ih =>
    simp only [List.foldl_cons]
    exact ih _ (nodup_add_cusip_key acc c.cusip h)

theorem nodup_cusip_keys (l : List ColorRaw) : (cusip_keys l).Nodup :=
  nodup_cusip_keys_aux l [] List.nodup_nil

theorem process_group_cusip (g : List ColorRaw) (k : String)
    (hg : ∀ c ∈ g, c.cusip = k) :
    ∀ x ∈ process_group g, x.cusip = k :=
  fun x hx => hg _ (mem_process_group g x hx)

theorem flatten_map_single {α β : Type _} [DecidableEq β] (keys : List β)
    (f : β → List α) (k : β) (hnd : keys.Nodup) (hmem : k ∈ keys)
    (hz : ∀ k2 ∈ keys, k2 ≠ k → f k2 = []) :
    (keys.map f).flatten = f k := by
  induction keys with
  | nil => simp at hmem
  | cons a t ih =>
    simp only [List.map_cons, List.flatten_cons]
    by_cases hak : a = k
    · subst hak
      have htz : ∀ k2 ∈ t, f k2 = [] := by
        intro k2 hk2
        by_cases hk2a : k2 = a
        · subst hk2a
          exact absurd hk2 ((List.nodup_cons.mp hnd).1)
        · exact hz k2 (List.mem_cons_of_mem _ hk2) hk2a
      have : (t.map f).flatten = [] := by
        rw [List.flatten_eq_nil_iff]
        intro l hl
        obtain ⟨k2, hk2, rfl⟩ := List.mem_map.mp hl
        exact htz k2 hk2
      rw [this, List.append_nil]
    · have hmt : k ∈ t := by
        rcases List.mem_cons.mp hmem with rfl | hmt
        · exact absurd rfl hak
        · exact hmt
      rw [hz a (List.mem_cons_self _ _) hak]
      simp only [List.nil_append]
      exact ih (List.nodup_cons.mp hnd).2 hmt
        (fun k2 hk2 => hz k2 (List.mem_cons_of_mem _ hk2))

/-! ## Helper lemmas : run_colors -/

theorem run_colors_filter (l : List ColorRaw) (k : String)
    (hk : k ∈ l.map (fun c => c.cusip)) :
    (run_colors l).filter (fun x => x.cusip == k)
      = process_group (l.filter (fun c => c.cusip == k)) := by
  have hlne : l.isEmpty = false := by
    cases l with
    | nil => simp at hk
    | cons a t => rfl
  unfold run_colors
  rw [hlne]
  simp only [Bool.false_eq_true, if_false]
  unfold group_by_cusip
  rw [List.map_map, List.filter_flatten, List.map_map]
  have hfun :
      ((fun ll : List ColorProcessed => ll.filter (fun x => x.cusip == k))
          ∘ (fun g : String × List ColorRaw => process_group g.2)
          ∘ (fun k2 : String => (k2, l.filter (fun c => c.cusip == k2))))
        = fun k2 : String =>
            (process_group (l.filter (fun c => c.cusip == k2))).filter
              (fun x => x.cusip == k) := rfl
  rw [hfun]
  rw [flatten_map_single (cusip_keys l) _ k (nodup_cusip_keys l)
    ((mem_cusip_keys l k).mpr hk) ?_]
  · rw [List.filter_eq_self.mpr]
    intro x hx
    have := process_group_cusip (l.filter (fun c => c.cusip == k)) k
      (fun c hc => by simpa using (List.mem_filter.mp hc).2) x hx
    simp [this]
  · intro k2 hk2 hne
    rw [List.filter_eq_nil_iff]
    intro x hx
    have := process_group_cusip (l.filter (fun c => c.cusip == k2)) k2
      (fun c hc => by simpa using (List.mem_filter.mp hc).2) x hx
    simp [this]
    exact hne

/-! ## Claim C5 : run_colors hierarchy invariant -/

/-- C5: the output of run_colors partitions into cusip groups: every
processed record carries a cusip present in the input, so it belongs to
exactly one group; within the group of any cusip present in the input the
output records are exactly one parent followed by the children, the group
has the size of the corresponding input group, the parent has is_parent
true, no parent reference and a children count of group size minus one,
and every child has is_parent false, children count 0 and a parent
reference equal to the parent message id; a singleton group yields one
parent with children count 0 and no parent reference. -/
theorem run_colors_hierarchy (l : List ColorRaw) (k : String)
    (hk : k ∈ l.map (fun c => c.cusip)) :
    (∀ x ∈ run_colors l, x.cusip ∈ l.map (fun c => c.cusip))
      ∧ ∃ p cs, (run_colors l).filter (fun x => x.cusip == k) = p :: cs
          ∧ (p :: cs).length = (l.filter (fun c => c.cusip == k)).length
          ∧ p.is_parent = true
          ∧ p.parent_message_id = none
          ∧ p.children_count = cs.length
          ∧ ∀ x ∈ cs, x.is_parent = false ∧ x.children_count = 0
              ∧ x.parent_message_id = some p.message_id := by
  constructor
  · intro x hx
    have hlne : l.isEmpty = false := by
      cases l with
      | nil => simp at hk
      | cons a t => rfl
    unfold run_colors at hx
    rw [hlne] at hx
    simp only [Bool.false_eq_true, if_false] at hx
    rw [List.mem_flatten] at hx
    obtain ⟨ll, hll, hxll⟩ := hx
    unfold group_by_cusip at hll
    rw [List.map_map] at hll
    obtain ⟨k2, hk2, rfl⟩ := List.mem_map.mp hll
    have hraw : x.toColorRaw ∈ l.filter (fun c => c.cusip == k2) :=
      mem_process_group _ x hxll
    have hxl : x.toColorRaw ∈ l := (List.mem_filter.mp hraw).1
    exact List.mem_map.mpr ⟨x.toColorRaw, hxl, rfl⟩
  · have hgne : l.filter (fun c => c.cusip == k) ≠ [] := by
      obtain ⟨c, hc, hck⟩ := List.mem_map.mp hk
      intro he
      have : c ∈ l.filter (fun c => c.cusip == k) :=
        List.mem_filter.mpr ⟨hc, by simp [hck]⟩
      rw [he] at this
      simp at this
    cases hsort : List.insertionSort colorLe (l.filter (fun c => c.cusip == k)) with
    | nil => exact absurd hsort (insertionSort_ne_nil _ hgne)
    | cons p0 cs0 =>
      refine ⟨create_parent p0 cs0.length,
        cs0.map (fun c => create_child c p0.message_id), ?_, ?_, rfl, rfl, ?_, ?_⟩
      · rw [run_colors_filter l k hk]
        exact process_group_eq _ p0 cs0 hsort
      · have h1 : (process_group (l.filter (fun c => c.cusip == k))).length
            = (l.filter (fun c => c.cusip == k)).length :=
          length_process_group _
        rw [process_group_eq _ p0 cs0 hsort] at h1
        simpa using h1
      · simp only [List.length_map]
        rfl
      · intro x hx
        obtain ⟨c, hc, rfl⟩ := List.mem_map.mp hx
        exact ⟨rfl, rfl, rfl⟩

/-- First input row of the C5 witness, cusip A. -/
def witness_row_a1 : ColorRaw :=
  { message_id := 10, cusip := "A", date := 1, rank := 1, px := 5 }

/-- Second input row of the C5 witness, cusip B, a singleton group. -/
def witness_row_b1 : ColorRaw :=
  { message_id := 20, cusip := "B", date := 1, rank := 1, px := 6 }

/-- Third input row of the C5 witness, cusip A again. -/
def witness_row_a2 : ColorRaw :=
  { message_id := 30, cusip := "A", date := 2, rank := 1, px := 7 }

/-- Witness for C5 on a two cusip input. -/
theorem run_colors_hierarchy_witness :
    ("A" ∈ ([witness_row_a1, witness_row_b1, witness_row_a2]
        : List ColorRaw).map (fun c => c.cusip))
      ∧ (∀ x ∈ run_colors [witness_row_a1, witness_row_b1, witness_row_a2],
          x.cusip ∈ ([witness_row_a1, witness_row_b1, witness_row_a2]
            : List ColorRaw).map (fun c => c.cusip)) := by
  refine ⟨by decide, ?_⟩
  exact (run_colors_hierarchy [witness_row_a1, witness_row_b1, witness_row_a2]
    "A" (by decide)).1

/-! ## Helper lemmas : output accumulator -/

theorem trim_to_last_length (n : Nat) (l : List OutputRow) :
    (trim_to_last n l).length = min l.length n := by
  unfold trim_to_last
  split_ifs with h
  · simp only [List.length_drop]
    omega
  · omega

theorem trim_to_last_suffix (n : Nat) (l : List OutputRow) :
    trim_to_last n l <:+ l := by
  unfold trim_to_last
  split_ifs
  · exact List.drop_suffix _ _
  · exact List.suffix_refl _

theorem append_processed_eq (existing : List OutputRow)
    (colors : List ColorProcessed) (pa t : String) (h : colors.isEmpty = false) :
    (append_processed_colors existing colors pa t).1
      = trim_to_last 150 (trim_to_last 100 existing
          ++ colors.map (to_output_row pa t)) := by
  simp only [append_processed_colors, h, Bool.false_eq_true, if_false]

theorem isEmpty_false_of_ne_nil {colors : List ColorProcessed}
    (h : colors ≠ []) : colors.isEmpty = false := by
  cases colors with
  | nil => exact absurd rfl h
  | cons a l => rfl

theorem append_processed_length (existing : List OutputRow)
    (colors : List ColorProcessed) (pa t : String) (h : colors ≠ []) :
    ((append_processed_colors existing colors pa t).1).length
      = min (min existing.length 100 + colors.length) 150 := by
  rw [append_processed_eq existing colors pa t (isEmpty_false_of_ne_nil h)]
  rw [trim_to_last_length, List.length_append, trim_to_last_length,
    List.length_map]

theorem append_processed_suffix (existing : List OutputRow)
    (colors : List ColorProcessed) (pa t : String) :
    (append_processed_colors existing colors pa t).1
      <:+ existing ++ colors.map (to_output_row pa t) := by
  by_cases hne : colors.isEmpty = true
  · have hnil : colors = [] := by
      cases colors with
      | nil => rfl
      | cons a l => exact absurd hne (by simp)
    subst hnil
    simp [append_processed_colors]
  · have hb : colors.isEmpty = false := by
      cases hh : colors.isEmpty
      · rfl
      · exact absurd hh hne
    rw [append_processed_eq existing colors pa t hb]
    have hcomb : trim_to_last 100 existing ++ colors.map (to_output_row pa t)
        <:+ existing ++ colors.map (to_output_row pa t) := by
      obtain ⟨s, hs⟩ := trim_to_last_suffix 100 existing
      exact ⟨s, by rw [← List.append_assoc, hs]⟩
    exact (trim_to_last_suffix 150 _).trans hcomb

theorem append_processed_keeps_new (existing : List OutputRow)
    (colors : List ColorProcessed) (pa t : String)
    (h : colors.length ≤ 150) :
    colors.map (to_output_row pa t)
      <:+ (append_processed_colors existing colors pa t).1 := by
  by_cases hne : colors.isEmpty = true
  · have hnil : colors = [] := by
      cases colors with
      | nil => rfl
      | cons a l => exact absurd hne (by simp)
    subst hnil
    simp
  · have hb : colors.isEmpty = false := by
      cases hh : colors.isEmpty
      · rfl
      · exact absurd hh hne
    rw [append_processed_eq existing colors pa t hb]
    refine List.suffix_of_suffix_length_le (List.suffix_append _ _)
      (trim_to_last_suffix 150 _) ?_
    rw [trim_to_last_length, List.length_append, List.length_map]
    omega

/-! ## Claim C1 : output accumulator retention -/

/-- C1 amended: before a nonempty append, a store above 100 rows is
trimmed to the most recent 100, then the new records are concatenated, and
a total above 150 is trimmed to the most recent 150; hence the resulting
store holds min of (min of stored count and 100) plus the batch size, and
150 rows, always a suffix of the old store followed by the new records,
and a batch of at most 150 records is retained in full. Appending a batch
that lifts the stored count from 149 towards 160 therefore leaves 111
rows, not 150; exactly 150 remain only when the pre trimmed store plus the
batch exceeds 150, for example a 60 record batch on a 149 row store. -/
theorem output_retention (existing : List OutputRow)
    (colors : List ColorProcessed) (pa t : String) (h : colors ≠ []) :
    ((append_processed_colors existing colors pa t).1).length
        = min (min existing.length 100 + colors.length) 150
      ∧ (append_processed_colors existing colors pa t).1
          <:+ existing ++ colors.map (to_output_row pa t)
      ∧ (colors.length ≤ 150 →
          colors.map (to_output_row pa t)
            <:+ (append_processed_colors existing colors pa t).1) :=
  ⟨append_processed_length existing colors pa t h,
    append_processed_suffix existing colors pa t,
    fun hl => append_processed_keeps_new existing colors pa t hl⟩

/-- Default processed color used to build concrete stores. -/
def dummy_processed : ColorProcessed := { message_id := 0 }

/-- Default output row used to build concrete stores. -/
def dummy_output_row : OutputRow := to_output_row "" "" dummy_processed

/-- Nonemptiness of a replicated batch, used by the concrete stores. -/
theorem replicate_processed_ne_nil (n : Nat) (hn : n ≠ 0)
    (c : ColorProcessed) : List.replicate n c ≠ [] := by
  intro he
  have hl := congrArg List.length he
  simp only [List.length_replicate, List.length_nil] at hl
  exact hn hl

/-- Witness for C1: a 60 record batch on a 149 row store leaves exactly
150 rows. -/
theorem output_retention_witness :
    ((append_processed_colors (List.replicate 149 dummy_output_row)
        (List.replicate 60 dummy_processed) "now" "MANUAL").1).length = 150 := by
  have h := (output_retention (List.replicate 149 dummy_output_row)
    (List.replicate 60 dummy_processed) "now" "MANUAL"
    (replicate_processed_ne_nil 60 (by omega) dummy_processed)).1
  simp only [List.length_replicate] at h
  rw [h]
  decide

/-- Counterexample for C1 as frozen: an 11 record batch on a 149 row store,
the scenario lifting the stored count from 149 towards 160, leaves 111
rows, not the 150 the claim asserts, because the pre append trim to 100
fires first. -/
theorem output_retention_counterexample :
    (List.replicate 149 dummy_output_row).length = 149
      ∧ (List.replicate 11 dummy_processed).length = 11
      ∧ ((append_processed_colors (List.replicate 149 dummy_output_row)
            (List.replicate 11 dummy_processed) "now" "MANUAL").1).length = 111
      ∧ ¬ ((append_processed_colors (List.replicate 149 dummy_output_row)
            (List.replicate 11 dummy_processed) "now" "MANUAL").1).length = 150 := by
  have h := append_processed_length (List.replicate 149 dummy_output_row)
    (List.replicate 11 dummy_processed) "now" "MANUAL"
    (replicate_processed_ne_nil 11 (by omega) dummy_processed)
  simp only [List.length_replicate] at h
  refine ⟨by simp, by simp, ?_, ?_⟩
  · rw [h]
    decide
  · rw [h]
    decide

/-! ## Helper lemmas : scheduler state -/

theorem find?_filter_of_imp {α : Type _} (l : List α) (p q : α → Bool)
    (h : ∀ a, p a = true → q a = true) :
    (l.filter q).find? p = l.find? p := by
  induction l with
  | nil => rfl
  | cons a t ih =>
    by_cases hq : q a = true
    · rw [List.filter_cons_of_pos hq]
      by_cases hp : p a = true
      · rw [List.find?_cons_of_pos _ hp, List.find?_cons_of_pos _ hp]
      · rw [List.find?_cons_of_neg _ hp, List.find?_cons_of_neg _ hp, ih]
    · rw [List.filter_cons_of_neg hq]
      have hp : ¬ p a = true := fun hpa => hq (h a hpa)
      rw [List.find?_cons_of_neg _ hp, ih]

theorem sched_get_job_remove (st : SchedulerState) (k : JobKey) :
    sched_get_job (sched_remove_job st k) k = none := by
  unfold sched_get_job sched_remove_job
  have : (List.filter (fun j => j.1 != k) st.jobs).find?
      (fun j => j.1 == k) = none := by
    rw [List.find?_eq_none]
    intro j hj
    have h2 := (List.mem_filter.mp hj).2
    simp only [bne_iff_ne, ne_eq] at h2
    simp [h2]
  rw [this]
  rfl

theorem sched_get_job_add_ne (st : SchedulerState) (k k2 : JobKey) (s : String)
    (h : k ≠ k2) :
    sched_get_job (sched_add_job st k2 s) k = sched_get_job st k := by
  unfold sched_get_job sched_add_job
  rw [List.find?_append]
  have hsingle : List.find? (fun j => j.1 == k) [(k2, s)] = none := by
    rw [List.find?_eq_none]
    intro x hx
    rw [List.mem_singleton] at hx
    subst hx
    simp only [beq_iff_eq]
    exact fun e => h e.symm
  rw [hsingle, find?_filter_of_imp]
  · cases List.find? (fun j => j.1 == k) st.jobs <;> rfl
  · intro a ha
    have ha2 : a.1 = k := by simpa using ha
    simp only [bne_iff_ne, ne_eq, ha2]
    exact h

/-! ## Claim C2 : override restore -/

/-- C2, evaluation of the code at the failing input: for an active job
whose cron schedule is registered, a manual trigger with override removes
the next scheduled firing at once, as the claim says, but the restore step
never re-registers the schedule: the closure restore_schedule calls the
name parse_cron_schedule, which is defined nowhere in the repository, so
the NameError is caught and only logged, and the schedule lookup for the
job still returns none after the grace delay, for every possible next fire
function, instead of the non null next run time the claim requires. -/
theorem override_restore_never_restores (next_fire : String → Option String)
    (st : SchedulerState) (job : CronJob) (ts : String)
    (hreg : sched_get_job st (JobKey.cron job.id) = some job.schedule)
    (hact : job.is_active = true) :
    get_next_run_time next_fire (trigger_job_manually st job true ts) job.id = none
      ∧ get_next_run_time next_fire
          (restore_schedule job (trigger_job_manually st job true ts)) job.id
        = none := by
  have hrm : sched_get_job (trigger_job_manually st job true ts)
      (JobKey.cron job.id) = none := by
    unfold trigger_job_manually
    simp only [hact, Bool.and_self, if_true, hreg]
    rw [sched_get_job_add_ne]
    · exact sched_get_job_remove st (JobKey.cron job.id)
    · intro e
      exact JobKey.noConfusion e
  have hrest : restore_schedule job (trigger_job_manually st job true ts)
      = trigger_job_manually st job true ts := by
    unfold restore_schedule
    rw [hact, if_pos rfl, if_neg (by decide)]
  refine ⟨?_, ?_⟩
  · unfold get_next_run_time
    rw [hrm]
  · unfold get_next_run_time
    rw [hrest, hrm]

/-! ## Helper lemmas : upload buffer -/

theorem history_status_set_first (hist : List HistoryEntry) (i : Int)
    (f : HistoryEntry → HistoryEntry) (v : String)
    (hid : ∀ e, (f e).id = e.id) (hst : ∀ e, (f e).status = v)
    (h : ∃ s, history_status hist i = some s) :
    history_status (set_first_history hist i f) i = some v := by
  induction hist with
  | nil =>
    obtain ⟨s, hs⟩ := h
    simp [history_status] at hs
  | cons e t ih =>
    by_cases he : e.id = i
    · unfold set_first_history
      rw [if_pos he]
      unfold history_status
      rw [List.find?_cons_of_pos]
      · simp [hst]
      · simp [hid, he]
    · unfold set_first_history
      rw [if_neg he]
      unfold history_status at *
      rw [List.find?_cons_of_neg]
      · apply ih
        obtain ⟨s, hs⟩ := h
        rw [List.find?_cons_of_neg] at hs
        · exact ⟨s, hs⟩
        · simp [he]
      · simp [he]

/-! ## Claim C9 : upload buffer error handling -/

/-- C9: a manually submitted batch whose read or structural validation
fails is recorded as failed in the upload history and is never added to
the buffer queue; a buffered batch, whatever its processing outcome, has
its entry removed from the buffer rather than re-queued, and when the
processing fails its history entry is marked failed. -/
theorem upload_buffer_error_handling :
    (∀ (req : List String) (rr : Except String UploadDF) (fn ub now : String)
        (st : UploadState),
      (process_manual_upload req rr fn ub now st).2 = false →
        (process_manual_upload req rr fn ub now st).1.buffer = st.buffer
          ∧ ∃ e, (process_manual_upload req rr fn ub now st).1.history
                = e :: st.history
              ∧ e.status = "failed")
    ∧ (∀ (rr : Except String (List (Option ColorRaw))) (entry : BufferEntry)
        (now : String) (st : UploadState),
      (process_buffered_file rr entry now st).1.buffer
          = st.buffer.filter (fun f => f.id != entry.id)
        ∧ (∀ f ∈ (process_buffered_file rr entry now st).1.buffer,
            f.id ≠ entry.id)
        ∧ ((process_buffered_file rr entry now st).2 = false →
            ∀ s, history_status st.history entry.id = some s →
              history_status (process_buffered_file rr entry now st).1.history
                  entry.id
                = some "failed")) := by
  constructor
  · intro req rr fn ub now st hfail
    cases rr with
    | error e =>
      refine ⟨rfl, ⟨_, rfl, ?_⟩⟩
      rfl
    | ok df =>
      by_cases hv : (validate_excel_structure req df).1 = true
      · exfalso
        simp [process_manual_upload, hv] at hfail
      · have hv2 : (validate_excel_structure req df).1 = false := by
          cases hvv : (validate_excel_structure req df).1
          · rfl
          · exact absurd hvv hv
        constructor
        · simp [process_manual_upload, hv2]
        · refine ⟨{ id := get_next_upload_id st.history, filename := fn,
                    uploaded_by := ub, upload_time := now, status := "failed",
                    error := String.intercalate "; " (validate_excel_structure req df).2,
                    rows_uploaded := 0 }, ?_, rfl⟩
          simp [process_manual_upload, hv2]
  · intro rr entry now st
    have hbuf : (process_buffered_file rr entry now st).1.buffer
        = st.buffer.filter (fun f => f.id != entry.id) := by
      cases rr with
      | error e => rfl
      | ok rows =>
        by_cases hcol : (parse_excel_to_colors rows).1.isEmpty = true
        · simp [process_buffered_file, hcol, mark_buffer_processed]
        · simp [process_buffered_file, hcol, mark_buffer_processed]
    refine ⟨hbuf, ?_, ?_⟩
    · intro f hf
      rw [hbuf] at hf
      have h2 := (List.mem_filter.mp hf).2
      simpa using h2
    · intro hfail s hs
      cases rr with
      | error e =>
        exact history_status_set_first st.history entry.id _ "failed"
          (fun _ => rfl) (fun _ => rfl) ⟨s, hs⟩
      | ok rows =>
        by_cases hcol : (parse_excel_to_colors rows).1.isEmpty = true
        · have hh : (process_buffered_file (Except.ok rows) entry now st).1.history
              = set_first_history st.history entry.id
                  (fun h => { h with status := "failed",
                                     error := "No valid rows could be parsed",
                                     processing_time := now }) := by
            simp [process_buffered_file, hcol]
          rw [hh]
          exact history_status_set_first st.history entry.id _ "failed"
            (fun _ => rfl) (fun _ => rfl) ⟨s, hs⟩
        · exfalso
          simp [process_buffered_file, hcol] at hfail

/-- Witness for C9: a failed read is recorded as failed without touching
the buffer, and a buffered batch that fails processing is marked failed
and leaves the buffer. -/
theorem upload_buffer_error_handling_witness :
    ((process_manual_upload ["MESSAGE_ID"] (Except.error "boom") "f.xlsx"
          "admin" "t0" ⟨[], [], []⟩).1.buffer = []
      ∧ ∃ e, (process_manual_upload ["MESSAGE_ID"] (Except.error "boom")
            "f.xlsx" "admin" "t0" ⟨[], [], []⟩).1.history = e :: []
          ∧ e.status = "failed")
      ∧ history_status
          (process_buffered_file (Except.error "read fail")
            { id := 5, filename := "f.xlsx" } "t1"
            ⟨[{ id := 5, status := "pending" }],
             [{ id := 5, filename := "f.xlsx" }], []⟩).1.history 5
        = some "failed" :=
  ⟨upload_buffer_error_handling.1 ["MESSAGE_ID"] (Except.error "boom")
      "f.xlsx" "admin" "t0" ⟨[], [], []⟩ rfl,
    (upload_buffer_error_handling.2 (Except.error "read fail")
        { id := 5, filename := "f.xlsx" } "t1"
        ⟨[{ id := 5, status := "pending" }],
         [{ id := 5, filename := "f.xlsx" }], []⟩).2.2 rfl "pending" rfl⟩

/-- Witness for C2 at a concrete scheduler and job. -/
theorem override_restore_never_restores_witness :
    get_next_run_time (fun s => some s)
        (trigger_job_manually ⟨[(JobKey.cron 1, "0 9 * * *")]⟩
          ⟨1, "daily", "0 9 * * *", true⟩ true "t0") 1 = none
      ∧ get_next_run_time (fun s => some s)
          (restore_schedule ⟨1, "daily", "0 9 * * *", true⟩
            (trigger_job_manually ⟨[(JobKey.cron 1, "0 9 * * *")]⟩
              ⟨1, "daily", "0 9 * * *", true⟩ true "t0")) 1 = none :=
  override_restore_never_restores (fun s => some s)
    ⟨[(JobKey.cron 1, "0 9 * * *")]⟩ ⟨1, "daily", "0 9 * * *", true⟩ "t0"
    (by decide) rfl

end MarketPulse
